import Mathlib

/-!
Verification of the tile_to_json batch conversion pipeline.

This file gives a shallow embedding of the parts of the Go source that the
verified properties speak about: the tile coordinate model
(internal/tile/types.go, internal/tile/processor.go), the batch executor
(internal/batch/processor.go, internal/batch/types.go), the two fetchers
(internal/tile/fetcher.go, internal/tile/local_fetcher.go) and the MVT
decoder and converter (pkg/mvt/decoder.go, pkg/mvt/geometry.go,
pkg/mvt/converter.go).

Modelling conventions:
  - Go int and int64 become Int (the values the claims quantify over stay
    far below the 64-bit overflow boundary, so wrap-around never matters);
  - Go float64 arithmetic is modelled exactly over the rationals;
  - Go error returns become Option or Except values;
  - a Go map with its nondeterministic iteration order is modelled as the
    association list of its entries in one possible iteration order;
  - the per-chunk worker pool is modelled by its deterministic observable
    behaviour: each work item of the chunk yields exactly one WorkResult,
    obtained from the per-item retry loop, and counters are order
    independent.
-/

namespace TileToJson

/-- Go helper from internal/batch/processor.go: min returns the minimum of
two integers. Named goMin because min already denotes the Lean order
operation. -/
def goMin (a b : Int) : Int :=
  if a < b then a else b

/-- The list of values taken by a Go loop of the shape
for v := lo; v <= hi; v++. -/
def intRange (lo hi : Int) : List Int :=
  (List.range (hi + 1 - lo).toNat).map (fun (i : Nat) => lo + (i : Int))

/-- internal/tile/processor.go ValidateCoordinates: zoom must lie in 0..22
and x, y in 0..2^z-1. -/
def ValidateCoordinates (z x y : Int) : Except String Unit :=
  if z < 0 ∨ z > 22 then
    .error "invalid zoom level"
  else if x < 0 ∨ x ≥ (2 : Int) ^ z.toNat then
    .error "invalid x coordinate"
  else if y < 0 ∨ y ≥ (2 : Int) ^ z.toNat then
    .error "invalid y coordinate"
  else
    .ok ()

/-- internal/tile/types.go TileRange: an inclusive range of tiles. -/
structure TileRange where
  MinZ : Int
  MaxZ : Int
  MinX : Int
  MaxX : Int
  MinY : Int
  MaxY : Int
deriving DecidableEq

/-- internal/tile/types.go TileRange.Count: loops z from MinZ to MaxZ and
adds (MaxX-MinX+1)*(MaxY-MinY+1) on every iteration. -/
def TileRange.Count (tr : TileRange) : Int :=
  (intRange tr.MinZ tr.MaxZ).foldl
    (fun total _ => total + (tr.MaxX - tr.MinX + 1) * (tr.MaxY - tr.MinY + 1)) 0

/-- internal/tile/types.go TileRequest (headers omitted: no verified
property reads them). -/
structure TileRequest where
  Z : Int
  X : Int
  Y : Int
  URL : String
deriving DecidableEq

/-- internal/batch/types.go WorkItem. -/
structure WorkItem where
  Request : TileRequest
  ChunkID : Int
  ItemID : Int
  Retry : Int
  Priority : Int
deriving DecidableEq

/-- internal/batch/types.go JobConfig (the fields the executor reads). -/
structure JobConfig where
  Concurrency : Int
  ChunkSize : Int
  FailOnError : Bool
  MaxRetries : Int
deriving DecidableEq

/-- internal/batch/processor.go buildTileURL: the URL is produced from the
hardcoded Sprintf template https://example.com/tiles/%d/%d/%d.mvt. -/
def buildTileURL (z x y : Int) : String :=
  "https://example.com/tiles/" ++ toString z ++ "/" ++ toString x ++ "/"
    ++ toString y ++ ".mvt"

/-- The (z, x, y) triples visited by the three nested loops of
generateWorkItems for one tile range: z outermost, then x, then y. -/
def enumerateRange (tr : TileRange) : List (Int × Int × Int) :=
  (intRange tr.MinZ tr.MaxZ).flatMap (fun z =>
    (intRange tr.MinX tr.MaxX).flatMap (fun x =>
      (intRange tr.MinY tr.MaxY).map (fun y => (z, x, y))))

/-- The loop body of generateWorkItems over the flattened coordinate list:
validate each coordinate (an invalid one aborts the whole generation with
an error), build the request with the hardcoded URL, and assign sequential
item ids. NewWorkItem is called with chunkID 0 in the source. -/
def buildWorkItems : List (Int × Int × Int) → Int → Except String (List WorkItem)
  | [], _ => .ok []
  | (z, x, y) :: rest, itemID =>
    match ValidateCoordinates z x y with
    | .error e => .error ("invalid tile coordinates: " ++ e)
    | .ok _ =>
      match buildWorkItems rest (itemID + 1) with
      | .error e => .error e
      | .ok items =>
        .ok ({ Request := { Z := z, X := x, Y := y, URL := buildTileURL z x y },
               ChunkID := 0, ItemID := itemID, Retry := 0, Priority := 0 } :: items)

/-- internal/batch/processor.go generateWorkItems. The config parameter is
received but never read by the source function. -/
def generateWorkItems (tileRanges : List TileRange) (_config : JobConfig) :
    Except String (List WorkItem) :=
  buildWorkItems (tileRanges.flatMap enumerateRange) 0

/-! Lemmas about the coordinate enumeration. -/

theorem mem_intRange {lo hi a : Int} : a ∈ intRange lo hi ↔ lo ≤ a ∧ a ≤ hi := by
  simp only [intRange, List.mem_map, List.mem_range]
  constructor
  · rintro ⟨i, hlt, rfl⟩
    omega
  · rintro ⟨h1, h2⟩
    refine ⟨(a - lo).toNat, ?_, ?_⟩ <;> omega

theorem length_intRange (lo hi : Int) :
    (intRange lo hi).length = (hi + 1 - lo).toNat := by
  rw [intRange, List.length_map, List.length_range]

theorem nodup_intRange (lo hi : Int) : (intRange lo hi).Nodup := by
  rw [intRange]
  refine List.Nodup.map ?_ (List.nodup_range _)
  intro i j h
  simp only [] at h
  omega

theorem foldl_const_add (c : Int) :
    ∀ (l : List Int) (a : Int), l.foldl (fun t _ => t + c) a = a + l.length * c := by
  intro l
  induction l with
  | nil => simp
  | cons x xs ih =>
    intro a
    simp only [List.foldl_cons, List.length_cons, ih]
    push_cast
    ring

theorem sum_map_const {α : Type} (c : Nat) :
    ∀ l : List α, (l.map (fun _ => c)).sum = l.length * c := by
  intro l
  induction l with
  | nil => simp
  | cons x xs ih => simp [ih, Nat.succ_mul, Nat.add_comm]

/-- Distinctness of a flatMap whose inner elements carry a tag that
recovers the outer element. -/
theorem nodup_flatMap_tag {α β : Type} {l : List α} {f : α → List β} (g : β → α)
    (hl : l.Nodup) (hf : ∀ a ∈ l, (f a).Nodup)
    (hg : ∀ a ∈ l, ∀ b ∈ f a, g b = a) :
    (l.flatMap f).Nodup := by
  rw [List.nodup_flatMap]
  refine ⟨hf, ?_⟩
  refine hl.imp_of_mem ?_
  intro a b ha hb hne x hxa hxb
  exact hne ((hg a ha x hxa).symm.trans (hg b hb x hxb))

theorem enumerateRange_nodup (tr : TileRange) : (enumerateRange tr).Nodup := by
  refine nodup_flatMap_tag (fun t => t.1) (nodup_intRange _ _) ?_ ?_
  · intro z _
    refine nodup_flatMap_tag (fun t => t.2.1) (nodup_intRange _ _) ?_ ?_
    · intro x _
      refine List.Nodup.map ?_ (nodup_intRange _ _)
      intro a b h
      simpa using h
    · intro x _ b hb
      simp only [List.mem_map] at hb
      obtain ⟨y, _, rfl⟩ := hb
      rfl
  · intro z _ b hb
    simp only [List.mem_flatMap, List.mem_map] at hb
    obtain ⟨x, _, y, _, rfl⟩ := hb
    rfl

theorem enumerateRange_length (tr : TileRange) :
    (enumerateRange tr).length =
      (tr.MaxZ + 1 - tr.MinZ).toNat *
        ((tr.MaxX + 1 - tr.MinX).toNat * (tr.MaxY + 1 - tr.MinY).toNat) := by
  simp only [enumerateRange, List.length_flatMap, List.map_map]
  have h1 : ∀ z : Int,
      ((intRange tr.MinX tr.MaxX).flatMap (fun x =>
        (intRange tr.MinY tr.MaxY).map (fun y => (z, x, y)))).length =
      (tr.MaxX + 1 - tr.MinX).toNat * (tr.MaxY + 1 - tr.MinY).toNat := by
    intro z
    simp only [List.length_flatMap, List.map_map]
    have : ∀ x : Int,
        ((intRange tr.MinY tr.MaxY).map (fun y => (z, x, y))).length =
          (tr.MaxY + 1 - tr.MinY).toNat := by
      intro x
      simp [length_intRange]
    simp only [Function.comp_def, this]
    rw [sum_map_const, length_intRange]
  simp only [Function.comp_def, h1]
  rw [sum_map_const, length_intRange]

theorem enumerateRange_mem {tr : TileRange} {c : Int × Int × Int}
    (hc : c ∈ enumerateRange tr) :
    tr.MinZ ≤ c.1 ∧ c.1 ≤ tr.MaxZ ∧ tr.MinX ≤ c.2.1 ∧ c.2.1 ≤ tr.MaxX ∧
      tr.MinY ≤ c.2.2 ∧ c.2.2 ≤ tr.MaxY := by
  simp only [enumerateRange, List.mem_flatMap, List.mem_map] at hc
  obtain ⟨z, hz, x, hx, y, hy, rfl⟩ := hc
  rw [mem_intRange] at hz hx
  rw [mem_intRange] at hy
  exact ⟨hz.1, hz.2, hx.1, hx.2, hy.1, hy.2⟩

theorem buildWorkItems_ok :
    ∀ (coords : List (Int × Int × Int)) (itemID : Int),
      (∀ c ∈ coords, ValidateCoordinates c.1 c.2.1 c.2.2 = .ok ()) →
      ∃ items, buildWorkItems coords itemID = .ok items ∧
        items.map (fun i => (i.Request.Z, i.Request.X, i.Request.Y)) = coords ∧
        ∀ i ∈ items, i.Request.URL = buildTileURL i.Request.Z i.Request.X i.Request.Y := by
  intro coords
  induction coords with
  | nil =>
    intro itemID _
    exact ⟨[], rfl, rfl, by simp⟩
  | cons c rest ih =>
    intro itemID hv
    obtain ⟨z, x, y⟩ := c
    obtain ⟨items, hitems, hmap, hurl⟩ :=
      ih (itemID + 1) (fun c hc => hv c (List.mem_cons_of_mem _ hc))
    have hc0 : ValidateCoordinates z x y = .ok () := hv (z, x, y) (List.mem_cons_self _ _)
    refine ⟨{ Request := { Z := z, X := x, Y := y, URL := buildTileURL z x y },
              ChunkID := 0, ItemID := itemID, Retry := 0, Priority := 0 } :: items,
            ?_, ?_, ?_⟩
    · simp only [buildWorkItems, hc0, hitems]
    · simp [hmap]
    · intro i hi
      rcases List.mem_cons.1 hi with h | h
      · subst h
        rfl
      · exact hurl i h

theorem validate_ok_of_bounds {z x y : Int} (hz0 : 0 ≤ z) (hz22 : z ≤ 22)
    (hx0 : 0 ≤ x) (hxg : x < 2 ^ z.toNat) (hy0 : 0 ≤ y) (hyg : y < 2 ^ z.toNat) :
    ValidateCoordinates z x y = .ok () := by
  unfold ValidateCoordinates
  rw [if_neg (by omega), if_neg (by push_neg; exact ⟨hx0, hxg⟩),
    if_neg (by push_neg; exact ⟨hy0, hyg⟩)]

theorem buildWorkItems_url :
    ∀ (coords : List (Int × Int × Int)) (itemID : Int) (items : List WorkItem),
      buildWorkItems coords itemID = .ok items →
      ∀ i ∈ items,
        i.Request.URL = buildTileURL i.Request.Z i.Request.X i.Request.Y := by
  intro coords
  induction coords with
  | nil =>
    intro itemID items h i hi
    simp only [buildWorkItems, Except.ok.injEq] at h
    subst h
    simp at hi
  | cons c rest ih =>
    intro itemID items h i hi
    obtain ⟨z, x, y⟩ := c
    simp only [buildWorkItems] at h
    cases hv : ValidateCoordinates z x y with
    | error e => rw [hv] at h; cases h
    | ok u =>
      rw [hv] at h
      cases hrec : buildWorkItems rest (itemID + 1) with
      | error e => rw [hrec] at h; cases h
      | ok tail =>
        rw [hrec] at h
        simp only [Except.ok.injEq] at h
        subst h
        rcases List.mem_cons.1 hi with hhead | htail
        · subst hhead
          rfl
        · exact ih (itemID + 1) tail hrec i htail

end TileToJson

namespace TileToJson

/-! The batch executor (internal/batch/processor.go and
internal/batch/types.go). Wall-clock fields (timestamps, durations,
throughput, estimated end) and the reporter callbacks are omitted: they do
not influence statuses, counters or return values. The worker pool is
modelled by its deterministic observable behaviour: the pool delivers
exactly one WorkResult per work item of the chunk, each produced by the
per-item retry loop, and all counters are order independent. The outcomes
of the injected dependencies (fetcher, tile processor, writer, context)
are supplied as oracles. -/

/-- internal/batch/types.go JobStatus. -/
inductive JobStatus where
  | pending
  | running
  | completed
  | failed
  | canceled
  | paused
deriving DecidableEq

/-- internal/batch/types.go JobProgress counters. -/
structure JobProgress where
  TotalTiles : Int
  ProcessedTiles : Int
  FailedTiles : Int
  SuccessTiles : Int
  CurrentChunk : Int
  TotalChunks : Int
deriving DecidableEq

/-- internal/batch/types.go JobProgress.CalculateProgress: 0 when
TotalTiles is 0, otherwise ProcessedTiles/TotalTiles*100 (float64
arithmetic modelled exactly over the rationals). -/
def JobProgress.CalculateProgress (p : JobProgress) : ℚ :=
  if p.TotalTiles = 0 then 0
  else (p.ProcessedTiles : ℚ) / (p.TotalTiles : ℚ) * 100

/-- internal/batch/types.go NewJobProgress: all counters start at zero. -/
def NewJobProgress : JobProgress := ⟨0, 0, 0, 0, 0, 0⟩

/-- internal/batch/types.go Job (timestamps omitted; the error is kept as
its message). -/
structure Job where
  ID : String
  TileRanges : List TileRange
  Config : JobConfig
  Status : JobStatus
  Progress : JobProgress
  Error : Option String
deriving DecidableEq

/-- internal/batch/types.go NewJob: a fresh pending job. -/
def NewJob (id : String) (ranges : List TileRange) (config : JobConfig) : Job :=
  ⟨id, ranges, config, .pending, NewJobProgress, none⟩

/-- internal/tile/types.go TileResponse, reduced to the fields the
verified properties read (StatusCode and the error message). -/
structure TileResponse where
  StatusCode : Int
  Error : Option String
deriving DecidableEq

/-- internal/tile/types.go TileCoordinate. -/
structure TileCoordinate where
  Z : Int
  X : Int
  Y : Int
deriving DecidableEq

/-- internal/tile/types.go ProcessedTile, reduced to its coordinate: the
executor only passes the payload through to the writer. -/
structure ProcessedTile where
  Coordinate : TileCoordinate
deriving DecidableEq

/-- internal/batch/types.go WorkResult (Duration omitted). -/
structure WorkResult where
  Item : WorkItem
  Tile : Option ProcessedTile
  Error : Option String
  Attempts : Int
deriving DecidableEq

/-- internal/batch/types.go ChunkResult (Duration omitted). -/
structure ChunkResult where
  ChunkID : Int
  Results : List WorkResult
  SuccessCount : Int
  FailureCount : Int
deriving DecidableEq

/-- Observable side effects of one run of the processWorkItem loop: the
sleep durations performed (in seconds, in order) and the number of calls
made to fetcher.Fetch. -/
structure WorkTrace where
  sleeps : List Int
  fetchCalls : Nat
deriving DecidableEq

/-- internal/batch/processor.go line 493 inside ProcessChunk: the number
of worker goroutines started for a chunk is min(len(workItems), 10). The
literal 10 is hardcoded; JobConfig.Concurrency is not consulted. -/
def processChunkWorkerCount (workItems : List WorkItem) : Int :=
  goMin (workItems.length : Int) 10

/-- internal/batch/processor.go processWorkItem retry loop, as a recursion
over the remaining values of the loop counter (source:
for attempt := 0; attempt <= 3; attempt++, with a sleep of attempt seconds
at the top of every attempt after the first). fetchAt gives the outcome of
fetcher.Fetch at a given attempt index; processResp gives the outcome of
processor.Process on a fetched response. When the loop exhausts all
attempts the result carries the last error and Attempts 4, as in the
source. -/
def processWorkItemLoop (fetchAt : Nat → Except String TileResponse)
    (processResp : TileResponse → Except String ProcessedTile)
    (workItem : WorkItem) :
    List Nat → Option String → List Int → Nat → WorkResult × WorkTrace
  | [], lastErr, sleeps, calls =>
    ({ Item := workItem, Tile := none, Error := lastErr, Attempts := 4 },
      ⟨sleeps, calls⟩)
  | attempt :: rest, lastErr, sleeps, calls =>
    let sleeps2 := if 0 < attempt then sleeps ++ [(attempt : Int)] else sleeps
    match fetchAt attempt with
    | .error e =>
      processWorkItemLoop fetchAt processResp workItem rest
        (some ("fetch failed: " ++ e)) sleeps2 (calls + 1)
    | .ok response =>
      match processResp response with
      | .error e =>
        processWorkItemLoop fetchAt processResp workItem rest
          (some ("process failed: " ++ e)) sleeps2 (calls + 1)
      | .ok processedTile =>
        ({ Item := workItem, Tile := some processedTile, Error := none,
           Attempts := (attempt : Int) + 1 }, ⟨sleeps2, calls + 1⟩)

/-- internal/batch/processor.go processWorkItem: the loop starts at
attempt 0 with no recorded error. -/
def processWorkItem (fetchAt : Nat → Except String TileResponse)
    (processResp : TileResponse → Except String ProcessedTile)
    (workItem : WorkItem) : WorkResult × WorkTrace :=
  processWorkItemLoop fetchAt processResp workItem [0, 1, 2, 3] none [] 0

/-- The error message one attempt of the worker loop records (none on
success): a failed fetch records fetch failed, a failed conversion records
process failed. -/
def attemptError (fetchAt : Nat → Except String TileResponse)
    (processResp : TileResponse → Except String ProcessedTile) (a : Nat) :
    Option String :=
  match fetchAt a with
  | .error e => some ("fetch failed: " ++ e)
  | .ok response =>
    match processResp response with
    | .error e => some ("process failed: " ++ e)
    | .ok _ => none

/-- internal/batch/processor.go ProcessChunk, deterministically: one
WorkResult per work item via processWorkItem, counters accumulated over
the collected results exactly as the collect loop does, and WriteBatch
(whose success is the writerOk oracle, per chunk) invoked when at least
one successfully processed tile exists. The same ChunkResult is returned
with the write error when the write fails. -/
def ProcessChunk (fetchAt : WorkItem → Nat → Except String TileResponse)
    (processResp : TileResponse → Except String ProcessedTile)
    (writerOk : Nat → Bool) (chunkIdx : Nat) (workItems : List WorkItem) :
    ChunkResult × Except String Unit :=
  let results := workItems.map
    (fun item => (processWorkItem (fetchAt item) processResp item).1)
  let successCount := (results.filter (fun r => r.Error = none)).length
  let failureCount := (results.filter (fun r => r.Error ≠ none)).length
  let processedTiles := results.filterMap
    (fun r => if r.Error = none then r.Tile else none)
  let chunkResult : ChunkResult :=
    { ChunkID := ((workItems.head?.map (fun i => i.ChunkID)).getD 0),
      Results := results,
      SuccessCount := (successCount : Int),
      FailureCount := (failureCount : Int) }
  if 0 < processedTiles.length ∧ writerOk chunkIdx = false then
    (chunkResult, .error "failed to write batch")
  else
    (chunkResult, .ok ())

/-- internal/batch/processor.go updateJobProgress: adds the number of
collected results, the success count and the failure count to the job
counters (the throughput and ETA recomputations touch only wall-clock
fields that are not modelled). -/
def updateJobProgress (job : Job) (chunkResult : ChunkResult) : Job :=
  { job with Progress :=
    { job.Progress with
        ProcessedTiles :=
          job.Progress.ProcessedTiles + (chunkResult.Results.length : Int),
        SuccessTiles := job.Progress.SuccessTiles + chunkResult.SuccessCount,
        FailedTiles := job.Progress.FailedTiles + chunkResult.FailureCount } }

/-- internal/batch/processor.go completeJobWithError: the job is marked
failed and keeps the error. -/
def completeJobWithError (job : Job) (err : String) : Job :=
  { job with Status := JobStatus.failed, Error := some err }

/-- internal/batch/processor.go completeJobSuccessfully. -/
def completeJobSuccessfully (job : Job) : Job :=
  { job with Status := JobStatus.completed }

/-- Helper for chunksOf: structural recursion on a fuel argument (the
fuel is instantiated with the list length, and every step consumes at
least the head of the list, so the middle branch is never reached from
chunksOf). -/
def chunksOfFuel (chunkSize : Nat) : Nat → List WorkItem → List (List WorkItem)
  | _, [] => []
  | 0, x :: xs => [x :: xs]
  | fuel + 1, x :: xs =>
    (x :: xs.take (chunkSize - 1))
      :: chunksOfFuel chunkSize fuel (xs.drop (chunkSize - 1))

/-- The successive slices workItems[chunkStart : chunkStart+chunkSize]
visited by the chunk loop of Process. -/
def chunksOf (chunkSize : Nat) (l : List WorkItem) : List (List WorkItem) :=
  chunksOfFuel chunkSize l.length l

/-- Cooperative cancellation oracle: the context is observed as done at
the cancellation checks from chunk index d onwards (none = never). -/
def ctxDone (doneFrom : Option Nat) (chunkID : Nat) : Bool :=
  match doneFrom with
  | none => false
  | some d => decide (d ≤ chunkID)

/-- The chunk loop of internal/batch/processor.go Process: cancellation is
checked at the top of every chunk (a done context routes through
completeJobWithError with the context error), then the chunk is processed,
a write failure aborts the job only under FailOnError, and the progress is
updated after every chunk. The returned list records Job.Progress after
every chunk-level progress update. When the loop exhausts the chunks the
job is completed successfully. -/
def processChunks (fetchAt : WorkItem → Nat → Except String TileResponse)
    (processResp : TileResponse → Except String ProcessedTile)
    (writerOk : Nat → Bool) (failOnError : Bool) (ctxDoneFrom : Option Nat) :
    List (List WorkItem) → Nat → Job → List JobProgress →
      Job × Except String Unit × List JobProgress
  | [], _, job, trace => (completeJobSuccessfully job, .ok (), trace)
  | chunk :: rest, chunkID, job, trace =>
    if ctxDone ctxDoneFrom chunkID then
      (completeJobWithError job "context canceled", .error "context canceled", trace)
    else
      let job1 := { job with Progress :=
        { job.Progress with CurrentChunk := (chunkID : Int) + 1 } }
      let pc := ProcessChunk fetchAt processResp writerOk chunkID chunk
      match pc.2 with
      | .error e =>
        if failOnError then
          (completeJobWithError job1 ("chunk failed: " ++ e),
            .error ("chunk failed: " ++ e), trace)
        else
          let job2 := updateJobProgress job1 pc.1
          processChunks fetchAt processResp writerOk failOnError ctxDoneFrom
            rest (chunkID + 1) job2 (trace ++ [job2.Progress])
      | .ok _ =>
        let job2 := updateJobProgress job1 pc.1
        processChunks fetchAt processResp writerOk failOnError ctxDoneFrom
          rest (chunkID + 1) job2 (trace ++ [job2.Progress])

/-- internal/batch/processor.go Process: mark the job running, generate
the work items (an error fails the job), set TotalTiles and TotalChunks,
then run the chunk loop. -/
def Process (fetchAt : WorkItem → Nat → Except String TileResponse)
    (processResp : TileResponse → Except String ProcessedTile)
    (writerOk : Nat → Bool) (ctxDoneFrom : Option Nat) (job : Job) :
    Job × Except String Unit × List JobProgress :=
  let jobR := { job with Status := JobStatus.running }
  match generateWorkItems jobR.TileRanges jobR.Config with
  | .error e =>
    (completeJobWithError jobR ("failed to generate work items: " ++ e),
      .error e, [])
  | .ok workItems =>
    let jobT := { jobR with Progress :=
      { jobR.Progress with
          TotalTiles := (workItems.length : Int),
          TotalChunks :=
            ((workItems.length : Int) + jobR.Config.ChunkSize - 1)
              / jobR.Config.ChunkSize } }
    processChunks fetchAt processResp writerOk jobT.Config.FailOnError
      ctxDoneFrom (chunksOf jobT.Config.ChunkSize.toNat workItems) 0 jobT []

/-- Concrete range, configs and work item used by the closed witness
instantiations and counterexamples below. -/
def demoRange0 : TileRange := ⟨0, 0, 0, 0, 0, 0⟩

def demoCfgA : JobConfig := ⟨10, 100, false, 3⟩

def demoCfgB : JobConfig := ⟨999, 1, true, 0⟩

def demoItem0 : WorkItem :=
  ⟨⟨0, 0, 0, "https://example.com/tiles/0/0/0.mvt"⟩, 0, 0, 0, 0⟩

/-! Lemmas about the per-item retry loop. -/

theorem processWorkItemLoop_calls (fetchAt : Nat → Except String TileResponse)
    (processResp : TileResponse → Except String ProcessedTile)
    (workItem : WorkItem) :
    ∀ (l : List Nat) (lastErr : Option String) (sleeps : List Int) (calls : Nat),
      (processWorkItemLoop fetchAt processResp workItem l lastErr sleeps calls).2.fetchCalls
        ≤ calls + l.length := by
  intro l
  induction l with
  | nil =>
    intro lastErr sleeps calls
    simp [processWorkItemLoop]
  | cons a rest ih =>
    intro lastErr sleeps calls
    simp only [processWorkItemLoop]
    cases hf : fetchAt a with
    | error e =>
      simp only [hf]
      have h := ih (some ("fetch failed: " ++ e))
        (if 0 < a then sleeps ++ [(a : Int)] else sleeps) (calls + 1)
      simp only [List.length_cons]
      omega
    | ok r =>
      simp only [hf]
      cases hp : processResp r with
      | error e =>
        simp only [hp]
        have h := ih (some ("process failed: " ++ e))
          (if 0 < a then sleeps ++ [(a : Int)] else sleeps) (calls + 1)
        simp only [List.length_cons]
        omega
      | ok t =>
        simp only [hp, List.length_cons]
        omega

theorem processWorkItemLoop_step_fail (fetchAt : Nat → Except String TileResponse)
    (processResp : TileResponse → Except String ProcessedTile)
    (workItem : WorkItem) (a : Nat) (rest : List Nat) (lastErr : Option String)
    (sleeps : List Int) (calls : Nat)
    (h : (attemptError fetchAt processResp a).isSome) :
    processWorkItemLoop fetchAt processResp workItem (a :: rest) lastErr sleeps calls =
      processWorkItemLoop fetchAt processResp workItem rest
        (attemptError fetchAt processResp a)
        (if 0 < a then sleeps ++ [(a : Int)] else sleeps) (calls + 1) := by
  cases hf : fetchAt a with
  | error e =>
    have ha : attemptError fetchAt processResp a = some ("fetch failed: " ++ e) := by
      simp [attemptError, hf]
    rw [ha]
    simp only [processWorkItemLoop, hf]
  | ok r =>
    cases hp : processResp r with
    | error e =>
      have ha : attemptError fetchAt processResp a = some ("process failed: " ++ e) := by
        simp [attemptError, hf, hp]
      rw [ha]
      simp only [processWorkItemLoop, hf, hp]
    | ok t =>
      have ha : attemptError fetchAt processResp a = none := by
        simp [attemptError, hf, hp]
      rw [ha] at h
      simp at h

/-- Demo oracles: a fetch that fails on every try, and a conversion that
always succeeds. -/
def failFetch : Nat → Except String TileResponse := fun _ => .error "connection refused"

def okProcess : TileResponse → Except String ProcessedTile := fun _ => .ok ⟨⟨0, 0, 0⟩⟩

/-- Counterexample to claim C3 as stated: with a fetch that fails on every
try, the worker loop of processWorkItem makes 4 fetch attempts in total,
not at most 3. -/
theorem claim_C3_counterexample :
    (processWorkItem failFetch okProcess demoItem0).2.fetchCalls = 4 ∧
    ¬ ((processWorkItem failFetch okProcess demoItem0).2.fetchCalls ≤ 3) := by
  decide

/-- Claim C3 (amended): the per-item worker loop makes at most 4 attempts
in total (the initial attempt plus 3 retries); when every attempt fails it
makes exactly 4 attempts, sleeps attempt seconds between consecutive
attempts (1 s, 2 s, 3 s), and returns a WorkResult carrying the error of
the last attempt with Attempts = 4. -/
theorem claim_C3 (fetchAt : Nat → Except String TileResponse)
    (processResp : TileResponse → Except String ProcessedTile)
    (workItem : WorkItem) :
    (processWorkItem fetchAt processResp workItem).2.fetchCalls ≤ 4 ∧
    ((∀ a ∈ ([0, 1, 2, 3] : List Nat),
        (attemptError fetchAt processResp a).isSome) →
      (processWorkItem fetchAt processResp workItem).2.fetchCalls = 4 ∧
      (processWorkItem fetchAt processResp workItem).1.Error
        = attemptError fetchAt processResp 3 ∧
      (processWorkItem fetchAt processResp workItem).1.Attempts = 4 ∧
      (processWorkItem fetchAt processResp workItem).2.sleeps = [1, 2, 3]) := by
  constructor
  · have h := processWorkItemLoop_calls fetchAt processResp workItem [0, 1, 2, 3] none [] 0
    simpa [processWorkItem] using h
  · intro hall
    have h0 := hall 0 (by simp)
    have h1 := hall 1 (by simp)
    have h2 := hall 2 (by simp)
    have h3 := hall 3 (by simp)
    rw [processWorkItem,
      processWorkItemLoop_step_fail fetchAt processResp workItem 0 _ _ _ _ h0,
      processWorkItemLoop_step_fail fetchAt processResp workItem 1 _ _ _ _ h1,
      processWorkItemLoop_step_fail fetchAt processResp workItem 2 _ _ _ _ h2,
      processWorkItemLoop_step_fail fetchAt processResp workItem 3 _ _ _ _ h3]
    simp [processWorkItemLoop]

/-- Witness for claim C3 at the always failing fetch. -/
theorem claim_C3_witness :
    (∀ a ∈ ([0, 1, 2, 3] : List Nat), (attemptError failFetch okProcess a).isSome) ∧
    (processWorkItem failFetch okProcess demoItem0).2.fetchCalls ≤ 4 ∧
    (processWorkItem failFetch okProcess demoItem0).2.sleeps = [1, 2, 3] := by
  refine ⟨by decide, (claim_C3 failFetch okProcess demoItem0).1, ?_⟩
  exact ((claim_C3 failFetch okProcess demoItem0).2 (by decide)).2.2.2

/-- Concrete data for the C1 evaluation: a range of 20 tiles at zoom 5 and
a configuration with concurrency 20 and chunk size 20. -/
def demoRange20 : TileRange := ⟨5, 5, 0, 3, 0, 4⟩

def demoCfg20 : JobConfig := ⟨20, 20, false, 3⟩

def demoChunk20 : List WorkItem :=
  (generateWorkItems [demoRange20] demoCfg20).toOption.getD []

/-- Claim C1 evaluated at a failing input: ProcessChunk on a chunk of 20
work items under configured concurrency 20 starts
processChunkWorkerCount = min(20, 10) = 10 workers. The worker count is
capped by the hardcoded literal 10; it is not min(chunk_size, configured
concurrency) = 20 and does not depend on JobConfig.Concurrency. -/
theorem claim_C1 :
    demoChunk20.length = 20 ∧
    processChunkWorkerCount demoChunk20 = 10 ∧
    goMin (demoChunk20.length : Int) demoCfg20.Concurrency = 20 ∧
    processChunkWorkerCount demoChunk20
      ≠ goMin (demoChunk20.length : Int) demoCfg20.Concurrency := by
  decide

/-- Demo oracle: a fetch that succeeds on every work item. -/
def okFetchW : WorkItem → Nat → Except String TileResponse :=
  fun _ _ => .ok ⟨200, none⟩

theorem processChunks_canceled (fetchAt : WorkItem → Nat → Except String TileResponse)
    (processResp : TileResponse → Except String ProcessedTile)
    (writerOk : Nat → Bool) (d : Nat) :
    ∀ (cl : List (List WorkItem)) (i : Nat) (job : Job) (trace : List JobProgress),
      i ≤ d → d < i + cl.length →
      (processChunks fetchAt processResp writerOk false (some d) cl i job trace).1.Status
          = JobStatus.failed ∧
      (processChunks fetchAt processResp writerOk false (some d) cl i job trace).1.Error
          = some "context canceled" ∧
      (processChunks fetchAt processResp writerOk false (some d) cl i job trace).2.1
          = .error "context canceled" := by
  intro cl
  induction cl with
  | nil =>
    intro i job trace h1 h2
    simp only [List.length_nil] at h2
    omega
  | cons chunk rest ih =>
    intro i job trace h1 h2
    by_cases hdi : d ≤ i
    · have hc : ctxDone (some d) i = true := by
        simp [ctxDone]
        omega
      simp [processChunks, hc, completeJobWithError]
    · have hc : ctxDone (some d) i = false := by
        simp [ctxDone]
        omega
      simp only [processChunks, hc, Bool.false_eq_true, if_false]
      cases hpc : (ProcessChunk fetchAt processResp writerOk i chunk).2 with
      | error e =>
        simp only [hpc, Bool.false_eq_true, if_false]
        exact ih (i + 1) _ _ (by omega) (by simp only [List.length_cons] at h2; omega)
      | ok u =>
        simp only [hpc]
        exact ih (i + 1) _ _ (by omega) (by simp only [List.length_cons] at h2; omega)

/-- Counterexample to claim C2 as stated: Process on a one-tile job with a
context that is done at the top of the first chunk leaves the job in
status failed, which is not canceled. -/
theorem claim_C2_counterexample :
    (Process okFetchW okProcess (fun _ => true) (some 0)
        (NewJob "job-1" [demoRange0] demoCfgA)).1.Status = JobStatus.failed ∧
    JobStatus.failed ≠ JobStatus.canceled := by
  decide

/-- Claim C2 (amended): when Process observes cancellation at the top of a
chunk (and no earlier chunk aborted the job, here ensured by FailOnError
being off), the job is routed through completeJobWithError: its status
becomes Failed (not Canceled), its error is the context error, and Process
returns the context error. -/
theorem claim_C2 (fetchAt : WorkItem → Nat → Except String TileResponse)
    (processResp : TileResponse → Except String ProcessedTile)
    (writerOk : Nat → Bool) (d : Nat) (job : Job) (workItems : List WorkItem)
    (hgen : generateWorkItems job.TileRanges job.Config = .ok workItems)
    (hfail : job.Config.FailOnError = false)
    (hd : d < (chunksOf job.Config.ChunkSize.toNat workItems).length) :
    (Process fetchAt processResp writerOk (some d) job).1.Status = JobStatus.failed ∧
    (Process fetchAt processResp writerOk (some d) job).1.Error
      = some "context canceled" ∧
    (Process fetchAt processResp writerOk (some d) job).2.1
      = .error "context canceled" := by
  have hgen2 : generateWorkItems
      ({ job with Status := JobStatus.running } : Job).TileRanges
      ({ job with Status := JobStatus.running } : Job).Config = .ok workItems := hgen
  simp only [Process, hgen2, hfail]
  exact processChunks_canceled fetchAt processResp writerOk d _ 0 _ []
    (Nat.zero_le d) (by simpa using hd)

/-- Witness for claim C2 at a concrete one-tile job canceled before its
first chunk. -/
theorem claim_C2_witness :
    (generateWorkItems (NewJob "job-1" [demoRange0] demoCfgA).TileRanges
        (NewJob "job-1" [demoRange0] demoCfgA).Config = .ok [demoItem0] ∧
      (NewJob "job-1" [demoRange0] demoCfgA).Config.FailOnError = false ∧
      0 < (chunksOf (NewJob "job-1" [demoRange0] demoCfgA).Config.ChunkSize.toNat
            [demoItem0]).length) ∧
    (Process okFetchW okProcess (fun _ => true) (some 0)
        (NewJob "job-1" [demoRange0] demoCfgA)).1.Error = some "context canceled" := by
  refine ⟨⟨rfl, rfl, by decide⟩, ?_⟩
  exact (claim_C2 okFetchW okProcess (fun _ => true) 0
    (NewJob "job-1" [demoRange0] demoCfgA) [demoItem0] rfl rfl (by decide)).2.1

/-! Lemmas for the progress invariant (claim C7). -/

theorem length_filter_add_not {α : Type} (p : α → Bool) :
    ∀ l : List α,
      (l.filter p).length + (l.filter (fun a => !(p a))).length = l.length := by
  intro l
  induction l with
  | nil => simp
  | cons x xs ih =>
    cases hpx : p x <;> simp [List.filter_cons, hpx] <;> omega

theorem successCount_add_failureCount (results : List WorkResult) :
    ((results.filter (fun r => r.Error = none)).length : Int)
      + ((results.filter (fun r => r.Error ≠ none)).length : Int)
      = (results.length : Int) := by
  have e : (results.filter (fun r => r.Error ≠ none))
      = results.filter (fun r => !(decide (r.Error = none))) := by
    apply List.filter_congr
    intro r _
    simp [decide_not]
  rw [e]
  have h := length_filter_add_not (fun (r : WorkResult) => decide (r.Error = none)) results
  push_cast
  omega

theorem ProcessChunk_fst (fetchAt : WorkItem → Nat → Except String TileResponse)
    (processResp : TileResponse → Except String ProcessedTile)
    (writerOk : Nat → Bool) (chunkIdx : Nat) (chunk : List WorkItem) :
    (ProcessChunk fetchAt processResp writerOk chunkIdx chunk).1 =
      { ChunkID := ((chunk.head?.map (fun i => i.ChunkID)).getD 0),
        Results := chunk.map
          (fun item => (processWorkItem (fetchAt item) processResp item).1),
        SuccessCount := (((chunk.map
          (fun item => (processWorkItem (fetchAt item) processResp item).1)).filter
            (fun r => r.Error = none)).length : Int),
        FailureCount := (((chunk.map
          (fun item => (processWorkItem (fetchAt item) processResp item).1)).filter
            (fun r => r.Error ≠ none)).length : Int) } := by
  simp only [ProcessChunk]
  split <;> rfl

/-- The invariant every recorded progress state satisfies. -/
def ProgressInv (p : JobProgress) : Prop :=
  p.ProcessedTiles = p.SuccessTiles + p.FailedTiles ∧
  0 ≤ p.SuccessTiles ∧ 0 ≤ p.FailedTiles ∧
  p.ProcessedTiles ≤ p.TotalTiles

theorem chunksOfFuel_flatten (cs : Nat) :
    ∀ (fuel : Nat) (l : List WorkItem), (chunksOfFuel cs fuel l).flatten = l := by
  intro fuel
  induction fuel with
  | zero =>
    intro l
    cases l <;> simp [chunksOfFuel]
  | succ n ih =>
    intro l
    cases l with
    | nil => simp [chunksOfFuel]
    | cons x xs =>
      simp only [chunksOfFuel, List.flatten_cons, ih, List.cons_append,
        List.take_append_drop]

theorem chunksOf_flatten (cs : Nat) (l : List WorkItem) :
    (chunksOf cs l).flatten = l :=
  chunksOfFuel_flatten cs l.length l

theorem processChunks_inv (fetchAt : WorkItem → Nat → Except String TileResponse)
    (processResp : TileResponse → Except String ProcessedTile)
    (writerOk : Nat → Bool) (failOnError : Bool) (ctxDoneFrom : Option Nat) :
    ∀ (cl : List (List WorkItem)) (i : Nat) (job : Job) (trace : List JobProgress),
      job.Progress.ProcessedTiles
          = job.Progress.SuccessTiles + job.Progress.FailedTiles →
      0 ≤ job.Progress.SuccessTiles →
      0 ≤ job.Progress.FailedTiles →
      job.Progress.ProcessedTiles + (cl.flatten.length : Int)
          = job.Progress.TotalTiles →
      (∀ p ∈ trace, ProgressInv p) →
      ∀ p ∈ (processChunks fetchAt processResp writerOk failOnError ctxDoneFrom
          cl i job trace).2.2, ProgressInv p := by
  intro cl
  induction cl with
  | nil =>
    intro i job trace h1 h2 h3 h4 htr
    simpa [processChunks] using htr
  | cons chunk rest ih =>
    intro i job trace h1 h2 h3 h4 htr
    have hfst := ProcessChunk_fst fetchAt processResp writerOk i chunk
    have hsum : (ProcessChunk fetchAt processResp writerOk i chunk).1.SuccessCount
        + (ProcessChunk fetchAt processResp writerOk i chunk).1.FailureCount
        = (chunk.length : Int) := by
      rw [hfst]
      have h := successCount_add_failureCount
        (chunk.map (fun item => (processWorkItem (fetchAt item) processResp item).1))
      rw [List.length_map] at h
      exact h
    have hres : ((ProcessChunk fetchAt processResp writerOk i chunk).1.Results.length : Int)
        = (chunk.length : Int) := by
      rw [hfst]
      simp
    have hs0 : 0 ≤ (ProcessChunk fetchAt processResp writerOk i chunk).1.SuccessCount := by
      rw [hfst]
      exact Int.natCast_nonneg _
    have hf0 : 0 ≤ (ProcessChunk fetchAt processResp writerOk i chunk).1.FailureCount := by
      rw [hfst]
      exact Int.natCast_nonneg _
    have hflat : ((chunk :: rest).flatten.length : Int)
        = (chunk.length : Int) + (rest.flatten.length : Int) := by
      simp
    have hstep : ∀ p ∈ (processChunks fetchAt processResp writerOk failOnError
        ctxDoneFrom rest (i + 1)
        (updateJobProgress
          { job with Progress := { job.Progress with CurrentChunk := (i : Int) + 1 } }
          (ProcessChunk fetchAt processResp writerOk i chunk).1)
        (trace ++ [(updateJobProgress
          { job with Progress := { job.Progress with CurrentChunk := (i : Int) + 1 } }
          (ProcessChunk fetchAt processResp writerOk i chunk).1).Progress])).2.2,
        ProgressInv p := by
      apply ih
      · simp only [updateJobProgress]
        omega
      · simp only [updateJobProgress]
        omega
      · simp only [updateJobProgress]
        omega
      · simp only [updateJobProgress]
        rw [hflat] at h4
        omega
      · intro p hp
        rcases List.mem_append.1 hp with hmem | hmem
        · exact htr p hmem
        · simp only [List.mem_singleton] at hmem
          subst hmem
          simp only [updateJobProgress, ProgressInv]
          rw [hflat] at h4
          have hnn : (0 : Int) ≤ (rest.flatten.length : Int) := Int.natCast_nonneg _
          refine ⟨by omega, by omega, by omega, by omega⟩
    simp only [processChunks]
    by_cases hcd : ctxDone ctxDoneFrom i = true
    · simp only [hcd, if_true]
      exact htr
    · have hcd' : ctxDone ctxDoneFrom i = false := by
        cases hval : ctxDone ctxDoneFrom i
        · rfl
        · exact absurd hval hcd
      simp only [hcd', Bool.false_eq_true, if_false]
      cases hpc : (ProcessChunk fetchAt processResp writerOk i chunk).2 with
      | error e =>
        simp only [hpc]
        cases hfe : failOnError with
        | true =>
          rw [if_pos rfl]
          exact htr
        | false =>
          rw [if_neg Bool.false_ne_true]
          rw [hfe] at hstep
          exact hstep
      | ok u =>
        simp only [hpc]
        exact hstep

/-- Claim C7: along any run of Process on a freshly created job, every
recorded chunk-level progress state satisfies processed = success + failed,
its CalculateProgress lies in [0, 100], is 0 when the total is 0 and equals
processed/total*100 otherwise. -/
theorem claim_C7 (fetchAt : WorkItem → Nat → Except String TileResponse)
    (processResp : TileResponse → Except String ProcessedTile)
    (writerOk : Nat → Bool) (ctxDoneFrom : Option Nat) (id : String)
    (ranges : List TileRange) (cfg : JobConfig) :
    ∀ p ∈ (Process fetchAt processResp writerOk ctxDoneFrom
        (NewJob id ranges cfg)).2.2,
      p.ProcessedTiles = p.SuccessTiles + p.FailedTiles ∧
      0 ≤ p.CalculateProgress ∧ p.CalculateProgress ≤ 100 ∧
      (p.TotalTiles = 0 → p.CalculateProgress = 0) ∧
      (p.TotalTiles ≠ 0 →
        p.CalculateProgress
          = (p.ProcessedTiles : ℚ) / (p.TotalTiles : ℚ) * 100) := by
  intro p hp
  have hInv : ProgressInv p := by
    simp only [Process, NewJob, NewJobProgress] at hp
    cases hgen : generateWorkItems ranges cfg with
    | error e =>
      rw [hgen] at hp
      simp at hp
    | ok workItems =>
      rw [hgen] at hp
      refine processChunks_inv fetchAt processResp writerOk cfg.FailOnError
        ctxDoneFrom (chunksOf cfg.ChunkSize.toNat workItems) 0 _ [] rfl
        le_rfl le_rfl ?_ (by simp) p hp
      simp [chunksOf_flatten]
  obtain ⟨h1, h2, h3, h4⟩ := hInv
  have hP0 : 0 ≤ p.ProcessedTiles := by omega
  refine ⟨h1, ?_, ?_, ?_, ?_⟩
  · unfold JobProgress.CalculateProgress
    split
    · exact le_refl 0
    · next ht =>
      have hTpos : (0 : ℚ) < (p.TotalTiles : ℚ) := by
        have : (0 : Int) < p.TotalTiles := by omega
        exact_mod_cast this
      have hPq : (0 : ℚ) ≤ (p.ProcessedTiles : ℚ) := by exact_mod_cast hP0
      have := div_nonneg hPq hTpos.le
      nlinarith
  · unfold JobProgress.CalculateProgress
    split
    · norm_num
    · next ht =>
      have hTpos : (0 : ℚ) < (p.TotalTiles : ℚ) := by
        have : (0 : Int) < p.TotalTiles := by omega
        exact_mod_cast this
      have hPq : (p.ProcessedTiles : ℚ) ≤ (p.TotalTiles : ℚ) := by exact_mod_cast h4
      have hdiv : (p.ProcessedTiles : ℚ) / (p.TotalTiles : ℚ) ≤ 1 :=
        (div_le_one hTpos).mpr hPq
      nlinarith
  · intro h0
    simp [JobProgress.CalculateProgress, h0]
  · intro hne
    simp [JobProgress.CalculateProgress, hne]

/-- The progress state recorded after the single chunk of the concrete
witness run below. -/
def demoProgressC7 : JobProgress := ⟨1, 1, 0, 1, 1, 1⟩

/-- Witness for claim C7 on a concrete one-tile job that succeeds. -/
theorem claim_C7_witness :
    demoProgressC7 ∈ (Process okFetchW okProcess (fun _ => true) none
        (NewJob "w" [demoRange0] demoCfgA)).2.2 ∧
    demoProgressC7.ProcessedTiles
      = demoProgressC7.SuccessTiles + demoProgressC7.FailedTiles ∧
    0 ≤ demoProgressC7.CalculateProgress ∧
    demoProgressC7.CalculateProgress ≤ 100 := by
  have hm : demoProgressC7 ∈ (Process okFetchW okProcess (fun _ => true) none
      (NewJob "w" [demoRange0] demoCfgA)).2.2 := by decide
  have h := claim_C7 okFetchW okProcess (fun _ => true) none "w" [demoRange0]
    demoCfgA demoProgressC7 hm
  exact ⟨hm, h.1, h.2.1, h.2.2.1⟩

/-- Claim C6: for every TileRange with min ≤ max componentwise and all
coordinates inside the 2^z grid (zoom in 0..22), Count() equals the sum
over z in [MinZ, MaxZ] of (MaxX-MinX+1)*(MaxY-MinY+1), and generateWorkItems
succeeds and yields exactly Count() work items with pairwise distinct
(z, x, y) tile ids. -/
theorem claim_C6 (tr : TileRange) (cfg : JobConfig)
    (hz : tr.MinZ ≤ tr.MaxZ) (hx : tr.MinX ≤ tr.MaxX) (hy : tr.MinY ≤ tr.MaxY)
    (hz0 : 0 ≤ tr.MinZ) (hz22 : tr.MaxZ ≤ 22)
    (hx0 : 0 ≤ tr.MinX) (hy0 : 0 ≤ tr.MinY)
    (hxg : tr.MaxX < 2 ^ tr.MinZ.toNat) (hyg : tr.MaxY < 2 ^ tr.MinZ.toNat) :
    tr.Count = ∑ z ∈ Finset.Icc tr.MinZ tr.MaxZ,
        ((tr.MaxX - tr.MinX + 1) * (tr.MaxY - tr.MinY + 1)) ∧
    ∃ items, generateWorkItems [tr] cfg = .ok items ∧
      (items.length : Int) = tr.Count ∧
      (items.map (fun i => (i.Request.Z, i.Request.X, i.Request.Y))).Nodup := by
  have hcount : tr.Count =
      ((tr.MaxZ + 1 - tr.MinZ).toNat : Int) *
        ((tr.MaxX - tr.MinX + 1) * (tr.MaxY - tr.MinY + 1)) := by
    rw [TileRange.Count, foldl_const_add, length_intRange]
    ring
  constructor
  · rw [hcount, Finset.sum_const, Int.card_Icc, nsmul_eq_mul]
  · have hval : ∀ c ∈ enumerateRange tr,
        ValidateCoordinates c.1 c.2.1 c.2.2 = .ok () := by
      intro c hc
      obtain ⟨h1, h2, h3, h4, h5, h6⟩ := enumerateRange_mem hc
      have hmono : (2 : Int) ^ tr.MinZ.toNat ≤ 2 ^ c.1.toNat :=
        pow_le_pow_right₀ (by norm_num) (Int.toNat_le_toNat (by omega))
      exact validate_ok_of_bounds (by omega) (by omega) (by omega)
        (by omega) (by omega) (by omega)
    have hflat : [tr].flatMap enumerateRange = enumerateRange tr := by
      simp
    obtain ⟨items, hitems, hmap, _⟩ := buildWorkItems_ok (enumerateRange tr) 0 hval
    refine ⟨items, ?_, ?_, ?_⟩
    · rw [generateWorkItems, hflat, hitems]
    · have hlen : items.length = (enumerateRange tr).length := by
        rw [← hmap, List.length_map]
      rw [hlen, enumerateRange_length, hcount]
      have e1 : ((tr.MaxZ + 1 - tr.MinZ).toNat : Int) = tr.MaxZ + 1 - tr.MinZ :=
        Int.toNat_of_nonneg (by omega)
      have e2 : ((tr.MaxX + 1 - tr.MinX).toNat : Int) = tr.MaxX + 1 - tr.MinX :=
        Int.toNat_of_nonneg (by omega)
      have e3 : ((tr.MaxY + 1 - tr.MinY).toNat : Int) = tr.MaxY + 1 - tr.MinY :=
        Int.toNat_of_nonneg (by omega)
      push_cast
      rw [e1, e2, e3]
      ring
    · rw [hmap]
      exact enumerateRange_nodup tr

/-- Witness for claim C6 at the concrete one-tile range 0/0/0. -/
theorem claim_C6_witness :
    (demoRange0.MinZ ≤ demoRange0.MaxZ ∧ 0 ≤ demoRange0.MinZ ∧
      demoRange0.MaxZ ≤ 22 ∧ demoRange0.MaxX < 2 ^ demoRange0.MinZ.toNat) ∧
    (demoRange0.Count = ∑ z ∈ Finset.Icc demoRange0.MinZ demoRange0.MaxZ,
        ((demoRange0.MaxX - demoRange0.MinX + 1) *
          (demoRange0.MaxY - demoRange0.MinY + 1)) ∧
      ∃ items, generateWorkItems [demoRange0] demoCfgA = .ok items ∧
        (items.length : Int) = demoRange0.Count ∧
        (items.map (fun i => (i.Request.Z, i.Request.X, i.Request.Y))).Nodup) := by
  refine ⟨by decide, ?_⟩
  exact claim_C6 demoRange0 demoCfgA (by decide) (by decide) (by decide) (by decide)
    (by decide) (by decide) (by decide) (by decide) (by decide)

/-- Claim C10: every work item generated by the batch executor carries the
URL built from the hardcoded template https://example.com/tiles/z/x/y.mvt,
and the generation is entirely independent of the job configuration. -/
theorem claim_C10 (tileRanges : List TileRange) (cfg cfg2 : JobConfig) :
    generateWorkItems tileRanges cfg = generateWorkItems tileRanges cfg2 ∧
    ∀ items, generateWorkItems tileRanges cfg = .ok items →
      ∀ i ∈ items,
        i.Request.URL = "https://example.com/tiles/" ++ toString i.Request.Z
          ++ "/" ++ toString i.Request.X ++ "/" ++ toString i.Request.Y
          ++ ".mvt" := by
  refine ⟨rfl, ?_⟩
  intro items hitems i hi
  exact buildWorkItems_url (tileRanges.flatMap enumerateRange) 0 items hitems i hi

/-! The two fetchers (internal/tile/fetcher.go and
internal/tile/local_fetcher.go). Fetch performs network or filesystem
effects, so its outcome at each attempt index is supplied as an oracle;
FetchWithRetry is embedded faithfully as a recursion over the values of
its loop counter. Only the response fields the retry logic reads are
modelled. -/

/-- internal (part of the repository root package) error codes, as the Go
string constants. -/
def ErrorCodeValidation : String := "VALIDATION_ERROR"

def ErrorCodeNotFound : String := "NOT_FOUND"

def ErrorCodeFileSystem : String := "FILESYSTEM_ERROR"

def ErrorCodePermission : String := "PERMISSION_ERROR"

/-- internal Error: a code plus a message (the wrapped cause is folded
into the message). -/
structure InternalError where
  Code : String
  Message : String
deriving DecidableEq

/-- internal/tile/fetcher.go HTTPFetcher.shouldRetry: never retry 4xx;
retry 5xx, status 0 and missing responses; anything else is final. -/
def HTTPFetcher.shouldRetry (response : Option TileResponse) : Bool :=
  match response with
  | none => true
  | some r =>
    if 400 ≤ r.StatusCode ∧ r.StatusCode < 500 then false
    else if 500 ≤ r.StatusCode ∨ r.StatusCode = 0 then true
    else false

/-- internal/tile/fetcher.go HTTPFetcher.FetchWithRetry loop body over the
remaining loop counter values (for attempt := 0; attempt <= MaxRetries):
a successful fetch returns immediately, a non-retryable failure breaks,
otherwise the loop continues with the failure recorded. The result is the
final response, the final error (none on success) and the number of Fetch
calls made. -/
def httpFetchRetryLoop (maxRetries : Int) (fetchAt : Nat → TileResponse) :
    List Nat → Option TileResponse → Nat →
      Option TileResponse × Option String × Nat
  | [], lastResponse, calls =>
    (lastResponse,
      some ("failed after " ++ toString (maxRetries + 1) ++ " attempts"), calls)
  | a :: rest, _lastResponse, calls =>
    let response := fetchAt a
    if response.Error = none then (some response, none, calls + 1)
    else if HTTPFetcher.shouldRetry (some response) then
      httpFetchRetryLoop maxRetries fetchAt rest (some response) (calls + 1)
    else
      (some response,
        some ("failed after " ++ toString (maxRetries + 1) ++ " attempts"),
        calls + 1)

/-- internal/tile/fetcher.go HTTPFetcher.FetchWithRetry. -/
def HTTPFetcher.FetchWithRetry (maxRetries : Int) (fetchAt : Nat → TileResponse) :
    Option TileResponse × Option String × Nat :=
  httpFetchRetryLoop maxRetries fetchAt (List.range (maxRetries + 1).toNat) none 0

/-- A Go error value as the local fetcher sees it: either a value of the
concrete type *internal.Error (carrying a code), or any other error value
(a raw error, as returned by buildFilePath next to a Validation-classified
response). The distinction matters because shouldRetry type-asserts the
error to *internal.Error. -/
inductive GoError where
  | internalErr (e : InternalError)
  | rawErr (msg : String)
deriving DecidableEq

/-- The pair LocalFetcher.Fetch returns on one attempt: the
classification recorded in TileResponse.Error, and the error value
returned alongside the response (none = success). On most failure paths
the two coincide; on the buildFilePath path they do not. -/
structure LocalFetchOutcome where
  responseError : Option InternalError
  err : Option GoError
deriving DecidableEq

/-- internal/tile/local_fetcher.go Fetch, buildFilePath failure path: the
response carries internal.NewError(ErrorCodeValidation, "failed to build
file path", cause), but the value returned as err is the raw cause
itself, not the internal wrapper. -/
def buildFilePathFailure (cause : String) : LocalFetchOutcome :=
  { responseError := some ⟨ErrorCodeValidation, "failed to build file path"⟩,
    err := some (.rawErr cause) }

/-- internal/tile/local_fetcher.go LocalFetcher.shouldRetry: the error is
type-asserted to *internal.Error; when the assertion succeeds and the
code is NotFound, Permission or Validation the failure is final. In every
other case, raw errors for which the assertion fails included, the
function falls through to return true. (Fetch always pairs its error with
a response, so the nil-response branch never fires.) -/
def LocalFetcher.shouldRetry (err : GoError) : Bool :=
  match err with
  | .internalErr appErr =>
    if appErr.Code = ErrorCodeNotFound ∨ appErr.Code = ErrorCodePermission
        ∨ appErr.Code = ErrorCodeValidation then
      false
    else
      true
  | .rawErr _ => true

/-- internal/tile/local_fetcher.go LocalFetcher.FetchWithRetry loop over
the remaining loop counter values; the hardcoded maxRetries is 3. The
outcome of Fetch at each attempt is the oracle (err = none means
success). -/
def localFetchRetryLoop (fetchAt : Nat → LocalFetchOutcome) :
    List Nat → Option GoError → Nat → Option GoError × Nat
  | [], lastErr, calls => (lastErr, calls)
  | a :: rest, _lastErr, calls =>
    match (fetchAt a).err with
    | none => (none, calls + 1)
    | some err =>
      if LocalFetcher.shouldRetry err then
        localFetchRetryLoop fetchAt rest (some err) (calls + 1)
      else
        (some err, calls + 1)

/-- internal/tile/local_fetcher.go LocalFetcher.FetchWithRetry with its
hardcoded maxRetries := 3. -/
def LocalFetcher.FetchWithRetry (fetchAt : Nat → LocalFetchOutcome) :
    Option GoError × Nat :=
  localFetchRetryLoop fetchAt (List.range (3 + 1)) none 0

theorem httpFetchRetryLoop_calls (maxRetries : Int) (fetchAt : Nat → TileResponse) :
    ∀ (l : List Nat) (lastResponse : Option TileResponse) (calls : Nat),
      (httpFetchRetryLoop maxRetries fetchAt l lastResponse calls).2.2
        ≤ calls + l.length := by
  intro l
  induction l with
  | nil =>
    intro lastResponse calls
    simp [httpFetchRetryLoop]
  | cons a rest ih =>
    intro lastResponse calls
    simp only [httpFetchRetryLoop]
    split
    · simp only [List.length_cons]
      omega
    · split
      · have h := ih (some (fetchAt a)) (calls + 1)
        simp only [List.length_cons]
        omega
      · simp only [List.length_cons]
        omega

theorem localFetchRetryLoop_calls (fetchAt : Nat → LocalFetchOutcome) :
    ∀ (l : List Nat) (lastErr : Option GoError) (calls : Nat),
      (localFetchRetryLoop fetchAt l lastErr calls).2 ≤ calls + l.length := by
  intro l
  induction l with
  | nil =>
    intro lastErr calls
    simp [localFetchRetryLoop]
  | cons a rest ih =>
    intro lastErr calls
    simp only [localFetchRetryLoop]
    cases hf : (fetchAt a).err with
    | none =>
      simp only [List.length_cons]
      omega
    | some err =>
      simp only [hf]
      split
      · have h := ih (some err) (calls + 1)
        simp only [List.length_cons]
        omega
      · simp only [List.length_cons]
        omega

/-- Demo oracles for the fetchers: a server that answers 404 on every
attempt, a tile file that is missing, and a request on which
buildFilePath fails persistently. -/
def demoHttp404 : Nat → TileResponse := fun _ => ⟨404, some "HTTP 404"⟩

def demoLocalNotFound : Nat → LocalFetchOutcome :=
  fun _ =>
    { responseError := some ⟨ErrorCodeNotFound, "tile file not found"⟩,
      err := some (.internalErr ⟨ErrorCodeNotFound, "tile file not found"⟩) }

def demoLocalRaw : Nat → LocalFetchOutcome :=
  fun _ => buildFilePathFailure "base_path is required for coordinate-based file paths"

/-- Counterexample to claim C4 as stated: on the local fetcher a
buildFilePath failure is classified Validation in the response, yet the
raw underlying error is returned, the type assertion in shouldRetry falls
through, and FetchWithRetry makes 4 attempts instead of exactly 1. -/
theorem claim_C4_counterexample :
    ((demoLocalRaw 0).responseError.map (fun e => e.Code))
      = some ErrorCodeValidation ∧
    (LocalFetcher.FetchWithRetry demoLocalRaw).2 = 4 ∧
    ¬ ((LocalFetcher.FetchWithRetry demoLocalRaw).2 = 1) := by
  decide

/-- Claim C4 (amended): both fetchers make at most max_retries + 1 total
attempts (the local fetcher hardcodes max_retries = 3). A first-attempt
failure stops after exactly one attempt for the HTTP fetcher when the
status is 4xx, and for the local fetcher when the returned error value is
an internal error with code NotFound, PermissionDenied or Validation; but
when the returned error is a raw error, as on the buildFilePath failure
path whose response is classified Validation, the type assertion in
shouldRetry fails and the fetcher retries: a persistent raw failure takes
all 4 attempts. -/
theorem claim_C4 (maxRetries : Int) (hm : 0 ≤ maxRetries)
    (fetchAtH : Nat → TileResponse) (fetchAtL : Nat → LocalFetchOutcome) :
    ((HTTPFetcher.FetchWithRetry maxRetries fetchAtH).2.2 : Int) ≤ maxRetries + 1 ∧
    ((fetchAtH 0).Error ≠ none → 400 ≤ (fetchAtH 0).StatusCode →
      (fetchAtH 0).StatusCode < 500 →
      (HTTPFetcher.FetchWithRetry maxRetries fetchAtH).2.2 = 1) ∧
    (LocalFetcher.FetchWithRetry fetchAtL).2 ≤ 3 + 1 ∧
    (∀ appErr, (fetchAtL 0).err = some (.internalErr appErr) →
      (appErr.Code = ErrorCodeNotFound ∨ appErr.Code = ErrorCodePermission
        ∨ appErr.Code = ErrorCodeValidation) →
      (LocalFetcher.FetchWithRetry fetchAtL).2 = 1) ∧
    ((∀ a ∈ ([0, 1, 2, 3] : List Nat), ∃ msg, (fetchAtL a).err = some (.rawErr msg)) →
      (LocalFetcher.FetchWithRetry fetchAtL).2 = 4) := by
  refine ⟨?_, ?_, ?_, ?_, ?_⟩
  · have h := httpFetchRetryLoop_calls maxRetries fetchAtH
      (List.range (maxRetries + 1).toNat) none 0
    rw [List.length_range] at h
    unfold HTTPFetcher.FetchWithRetry
    omega
  · intro herr h400 h500
    have hrange : List.range (maxRetries + 1).toNat
        = 0 :: (List.range maxRetries.toNat).map Nat.succ := by
      have : (maxRetries + 1).toNat = maxRetries.toNat + 1 := by omega
      rw [this, List.range_succ_eq_map]
    unfold HTTPFetcher.FetchWithRetry
    rw [hrange]
    simp only [httpFetchRetryLoop]
    rw [if_neg herr, if_neg]
    simp only [HTTPFetcher.shouldRetry]
    rw [if_pos ⟨h400, h500⟩]
    simp
  · have h := localFetchRetryLoop_calls fetchAtL (List.range (3 + 1)) none 0
    rw [List.length_range] at h
    unfold LocalFetcher.FetchWithRetry
    omega
  · intro appErr herr hcode
    unfold LocalFetcher.FetchWithRetry
    have hrange : List.range (3 + 1) = 0 :: (List.range 3).map Nat.succ :=
      List.range_succ_eq_map 3
    rw [hrange]
    simp only [localFetchRetryLoop, herr]
    simp only [LocalFetcher.shouldRetry]
    rw [if_pos hcode]
    simp
  · intro hall
    obtain ⟨m0, h0⟩ := hall 0 (by simp)
    obtain ⟨m1, h1⟩ := hall 1 (by simp)
    obtain ⟨m2, h2⟩ := hall 2 (by simp)
    obtain ⟨m3, h3⟩ := hall 3 (by simp)
    have hrange : List.range (3 + 1) = [0, 1, 2, 3] := rfl
    unfold LocalFetcher.FetchWithRetry
    rw [hrange]
    simp only [localFetchRetryLoop, h0, h1, h2, h3, LocalFetcher.shouldRetry,
      if_true]

/-- Witness for claim C4: the 404 server (1 HTTP attempt), the missing
tile file (1 local attempt), and the persistent buildFilePath failure
(4 local attempts). -/
theorem claim_C4_witness :
    ((0 : Int) ≤ 2 ∧
      (demoHttp404 0).Error ≠ none ∧
      400 ≤ (demoHttp404 0).StatusCode ∧ (demoHttp404 0).StatusCode < 500 ∧
      (demoLocalNotFound 0).err
        = some (.internalErr ⟨ErrorCodeNotFound, "tile file not found"⟩) ∧
      (∀ a ∈ ([0, 1, 2, 3] : List Nat), ∃ msg, (demoLocalRaw a).err
        = some (.rawErr msg))) ∧
    (HTTPFetcher.FetchWithRetry 2 demoHttp404).2.2 = 1 ∧
    (LocalFetcher.FetchWithRetry demoLocalNotFound).2 = 1 ∧
    (LocalFetcher.FetchWithRetry demoLocalRaw).2 = 4 := by
  refine ⟨⟨by decide, by decide, by decide, by decide, by decide, ?_⟩, ?_, ?_, ?_⟩
  · intro a _
    exact ⟨"base_path is required for coordinate-based file paths", rfl⟩
  · exact (claim_C4 2 (by decide) demoHttp404 demoLocalNotFound).2.1
      (by decide) (by decide) (by decide)
  · exact (claim_C4 2 (by decide) demoHttp404 demoLocalNotFound).2.2.2.1
      ⟨ErrorCodeNotFound, "tile file not found"⟩ rfl (by decide)
  · exact (claim_C4 2 (by decide) demoHttp404 demoLocalRaw).2.2.2.2
      (fun a _ =>
        ⟨"base_path is required for coordinate-based file paths", rfl⟩)

/-- Witness for claim C10 at the concrete one-tile range 0/0/0 and two
different configurations. -/
theorem claim_C10_witness :
    generateWorkItems [demoRange0] demoCfgA = generateWorkItems [demoRange0] demoCfgB ∧
    generateWorkItems [demoRange0] demoCfgA = .ok [demoItem0] ∧
    demoItem0.Request.URL = "https://example.com/tiles/" ++ toString demoItem0.Request.Z
      ++ "/" ++ toString demoItem0.Request.X ++ "/" ++ toString demoItem0.Request.Y
      ++ ".mvt" := by
  refine ⟨(claim_C10 [demoRange0] demoCfgA demoCfgB).1, rfl, ?_⟩
  exact (claim_C10 [demoRange0] demoCfgA demoCfgB).2 [demoItem0] rfl demoItem0
    (List.mem_cons_self _ _)

/-! The MVT decoder and converter metadata (pkg/mvt/decoder.go and
pkg/mvt/converter.go), and the geometry traversal (pkg/mvt/geometry.go).
A decoded tile's Layers is a Go map; its nondeterministic iteration order
is modelled by keeping the entries as an association list in one possible
iteration order. Vertex coordinates (float64 in the source) are modelled
exactly over the rationals. -/

/-- pkg/mvt/decoder.go TileID. -/
structure TileID where
  Z : Int
  X : Int
  Y : Int
deriving DecidableEq

/-- pkg/mvt/decoder.go TileID.String: the display form z/x/y. -/
def TileID.display (tid : TileID) : String :=
  toString tid.Z ++ "/" ++ toString tid.X ++ "/" ++ toString tid.Y

/-- pkg/mvt/decoder.go DecodedLayer (features omitted: the layer-name
property reads only the keys of the layer map). -/
structure DecodedLayer where
  Name : String
  Extent : Int
  Version : Int
deriving DecidableEq

/-- pkg/mvt/decoder.go DecodedTile; Layers is the map name -> layer,
kept as its entries in one possible Go map iteration order. -/
structure DecodedTile where
  Layers : List (String × DecodedLayer)
  Extent : Int
  Version : Int
  TileID : TileID
deriving DecidableEq

/-- pkg/mvt/decoder.go DecodedTile.GetLayerNames: ranges over the layer
map collecting the keys in iteration order; no sorting is applied. -/
def DecodedTile.GetLayerNames (dt : DecodedTile) : List String :=
  dt.Layers.map (fun e => e.1)

/-- pkg/mvt/converter.go ConversionMetadata. -/
structure ConversionMetadata where
  Layers : List String
  FeatureCount : Int
  Version : Int
  Extent : Int
  TileID : String
deriving DecidableEq

/-- pkg/mvt/converter.go Convert, metadata construction step: the layer
list is DecodedTile.GetLayerNames verbatim (internal/tile/processor.go
then copies metadata.Layers unchanged into TileMetadata.Layers). -/
def conversionMetadataOf (dt : DecodedTile) (featureCount : Int) :
    ConversionMetadata :=
  { Layers := dt.GetLayerNames,
    FeatureCount := featureCount,
    Version := dt.Version,
    Extent := dt.Extent,
    TileID := dt.TileID.display }

/-- A decoded tile whose layer map iterates in the order water, roads,
places: one of the possible iteration orders of the Go map built from the
layers of the test tile in pkg/mvt/decoder_test.go
(TestDecodedTileGetLayerNames). -/
def demoDecodedTile : DecodedTile :=
  { Layers := [("water", ⟨"water", 4096, 2⟩), ("roads", ⟨"roads", 4096, 2⟩),
      ("places", ⟨"places", 4096, 2⟩)],
    Extent := 4096,
    Version := 2,
    TileID := ⟨14, 8362, 5956⟩ }

/-- Claim C5 evaluated at a failing input: GetLayerNames applies no sort,
so a tile whose layer map iterates as water, roads, places yields exactly
that unsorted sequence in ConversionMetadata.Layers, while the repository's
own test (pkg/mvt/decoder_test.go, TestDecodedTileGetLayerNames, comment
Should be sorted) expects the sorted sequence places, roads, water. -/
theorem claim_C5 :
    (conversionMetadataOf demoDecodedTile 0).Layers = ["water", "roads", "places"] ∧
    ¬ List.Sorted (fun (a b : String) => a ≤ b)
        (conversionMetadataOf demoDecodedTile 0).Layers ∧
    List.Sorted (fun (a b : String) => a ≤ b)
        (["places", "roads", "water"] : List String) := by
  have hwr : ¬ (("water" : String) ≤ "roads") := by
    rw [String.le_iff_toList_le]
    decide
  have hpr : (("places" : String) ≤ "roads") := by
    rw [String.le_iff_toList_le]
    decide
  have hpw : (("places" : String) ≤ "water") := by
    rw [String.le_iff_toList_le]
    decide
  have hrw : (("roads" : String) ≤ "water") := by
    rw [String.le_iff_toList_le]
    decide
  refine ⟨rfl, ?_, ?_⟩
  · intro hsorted
    have h := (List.pairwise_cons.1 hsorted).1 "roads" (by simp)
    exact hwr h
  · refine List.sorted_cons.mpr ⟨?_, List.sorted_cons.mpr ⟨?_, ?_⟩⟩
    · intro b hb
      rcases List.mem_cons.1 hb with h | h
      · subst h
        exact hpr
      · simp only [List.mem_singleton] at h
        subst h
        exact hpw
    · intro b hb
      simp only [List.mem_singleton] at hb
      subst hb
      exact hrw
    · exact List.sorted_singleton _

/-- A GeoJSON vertex: orb.Point, two float64 coordinates modelled over
the rationals. -/
structure Point where
  x : ℚ
  y : ℚ
deriving DecidableEq

/-- The orb geometry variants handled by the traversal in
pkg/mvt/geometry.go. The constructor other stands for any other orb
geometry value, which the default branch of the source returns
unchanged. -/
inductive Geometry where
  | point (p : Point)
  | multiPoint (ps : List Point)
  | lineString (ps : List Point)
  | multiLineString (ls : List (List Point))
  | ring (ps : List Point)
  | polygon (rs : List (List Point))
  | multiPolygon (polys : List (List (List Point)))
  | other
deriving DecidableEq

/-- pkg/mvt/geometry.go applyGeometryTransform: apply the point function
to every vertex, preserving structure. For MultiLineString, Polygon and
MultiPolygon the source recurses via applyGeometryTransform on each
element and type-asserts the result back to the element type; on those
elements the recursion is exactly the pointwise map over their vertices,
inlined here so the recursion is structural. The default branch returns
the geometry unchanged. -/
def applyGeometryTransform (geom : Geometry) (transform : Point → Point) :
    Geometry :=
  match geom with
  | .point g => .point (transform g)
  | .multiPoint g => .multiPoint (g.map transform)
  | .lineString g => .lineString (g.map transform)
  | .multiLineString g =>
    .multiLineString (g.map (fun lineString => lineString.map transform))
  | .ring g => .ring (g.map transform)
  | .polygon g => .polygon (g.map (fun r => r.map transform))
  | .multiPolygon g =>
    .multiPolygon (g.map (fun polygon => polygon.map (fun r => r.map transform)))
  | .other => geom

/-- The structural skeleton of a geometry: the variant together with the
list sizes at every nesting level, coordinates erased. -/
inductive GeomShape where
  | point
  | multiPoint (n : Nat)
  | lineString (n : Nat)
  | multiLineString (ns : List Nat)
  | ring (n : Nat)
  | polygon (ns : List Nat)
  | multiPolygon (nss : List (List Nat))
  | other
deriving DecidableEq

/-- The skeleton of a geometry value. -/
def Geometry.shape : Geometry → GeomShape
  | .point _ => .point
  | .multiPoint g => .multiPoint g.length
  | .lineString g => .lineString g.length
  | .multiLineString g => .multiLineString (g.map List.length)
  | .ring g => .ring g.length
  | .polygon g => .polygon (g.map List.length)
  | .multiPolygon g => .multiPolygon (g.map (fun p => p.map List.length))
  | .other => .other

/-- Claim C9: the generic geometry traversal satisfies the functor laws
(identity, and composition in one pass versus two passes) and preserves
the structural skeleton, ring and polygon nesting included, on every
supported variant. -/
theorem claim_C9 (g : Geometry) (t u : Point → Point) :
    applyGeometryTransform g (fun p => p) = g ∧
    applyGeometryTransform g (fun p => u (t p))
      = applyGeometryTransform (applyGeometryTransform g t) u ∧
    (applyGeometryTransform g t).shape = g.shape := by
  refine ⟨?_, ?_, ?_⟩ <;>
    cases g <;>
      simp [applyGeometryTransform, Geometry.shape, List.map_map, Function.comp_def]

/-- pkg/mvt/decoder.go, the Web Mercator extent constant
20037508.342789244 as an exact rational. -/
def webMercatorMax : ℚ := 20037508342789244 / 1000000000

/-- pkg/mvt/decoder.go Decoder.transformGeometry: per vertex, tile pixel
coordinates are scaled by the layer extent, shifted by the tile index,
scaled by 2^z (the source computes float64(1 << uint(z))) and mapped to
Web Mercator; the closure is applied to every vertex through the generic
traversal. -/
def Decoder.transformGeometry (extent : Int) (geometry : Geometry)
    (z x y : Int) : Geometry :=
  let n : ℚ := (2 : ℚ) ^ z.toNat
  let tileSize : ℚ := (extent : ℚ)
  let transform := fun (point : Point) =>
    let tileX := point.x / tileSize
    let tileY := point.y / tileSize
    let globalX := ((x : ℚ) + tileX) / n
    let globalY := ((y : ℚ) + tileY) / n
    let mercatorX := (globalX * 2 - 1) * webMercatorMax
    let mercatorY := (1 - globalY * 2) * webMercatorMax
    Point.mk mercatorX mercatorY
  applyGeometryTransform geometry transform

/-- The vertex map written exactly as the claim states it:
gx = (x + px/E)/2^z, gy = (y + py/E)/2^z, mx = (2 gx - 1) M,
my = (1 - 2 gy) M with M = 20037508.342789244. This definition follows
the words of the specification, to be compared with the embedding of the
source. -/
def specMercatorPoint (z x y : Int) (E : ℚ) (p : Point) : Point :=
  let gx := ((x : ℚ) + p.x / E) / 2 ^ z.toNat
  let gy := ((y : ℚ) + p.y / E) / 2 ^ z.toNat
  ⟨(2 * gx - 1) * webMercatorMax, (1 - 2 * gy) * webMercatorMax⟩

/-- Claim C8: the decode-time coordinate promotion equals the claimed
formula applied to every vertex of every geometry variant through the
generic traversal. -/
theorem claim_C8 (extent z x y : Int) (g : Geometry) :
    Decoder.transformGeometry extent g z x y
      = applyGeometryTransform g (specMercatorPoint z x y (extent : ℚ)) := by
  unfold Decoder.transformGeometry specMercatorPoint
  refine congrArg (applyGeometryTransform g) (funext fun p => ?_)
  dsimp only
  simp only [Point.mk.injEq]
  constructor <;> ring

end TileToJson
